import Mathlib

/-!
Verification of the vorosim shared-memory telemetry transport.

The development shallowly embeds the core of the repository:
  * `src/vorosim/utils/win_mmap/writer/core.py`   (writer / emulator)
  * `src/vorosim/utils/win_mmap/provider/core.py` (reader / provider)
  * `src/vorosim/utils/widgets/plot/qtchart/core.py` (per-signal history buffer)

Modelling conventions:
  * bytes are `Nat` values (< 256 in any real buffer); byte strings are
    `List Nat`;
  * signal names are modelled by their UTF-8 byte sequences (UTF-8
    encoding of a string is injective and decoding a valid encoding is
    the inverse, so byte-level statements capture the string-level ones);
  * slot values are modelled as `Int` (the claims under study concern
    which slot's value is selected and order comparisons, never float
    arithmetic);
  * Python `dict` objects used purely through lookup are modelled as
    functions `key → Option value`, with assignment as pointwise update
    (later assignment shadows earlier — exactly the dict semantics the
    source relies on).
-/

namespace Vorosim

/-- Value of `struct.calcsize("<4sI Q d I")`: magic(4) + version(4) + counter(8) +
timestamp(8) + capacity(4). -/
def HEADER_SIZE : Nat := 28

/-- Constant `SLOT_NAME_BYTES = 64` in both writer and provider. -/
def SLOT_NAME_BYTES : Nat := 64

/-- Value of `struct.calcsize("<64s d I I")`: name(64) + value(8) + flags(4) + pad(4). -/
def SLOT_SIZE : Nat := 80

/-- Constant `FLAG_ACTIVE = 1`. -/
def FLAG_ACTIVE : Nat := 1

/-- Constant `MAGIC = b"VSM1"`, as its byte values. -/
def MAGIC : List Nat := [86, 83, 77, 49]

/-- Writer `_encode_name`: UTF-8 encode (the argument is already the byte
sequence), truncate to `SLOT_NAME_BYTES - 1` bytes, right-pad with zero
bytes to `SLOT_NAME_BYTES`.
Source: `raw = name.encode("utf-8")[: SLOT_NAME_BYTES - 1];
return raw + b"\x00" * (SLOT_NAME_BYTES - len(raw))`. -/
def encode_name (raw : List Nat) : List Nat :=
  let r := raw.take (SLOT_NAME_BYTES - 1)
  r ++ List.replicate (SLOT_NAME_BYTES - r.length) 0

/-- Provider `_decode_name`: keep everything before the first zero byte
(`name_bytes.split(b"\x00", 1)[0]`), then UTF-8 decode with lossy
replacement (the identity on the byte sequence of a valid encoding). -/
def decode_name (bs : List Nat) : List Nat :=
  bs.takeWhile (fun b => b ≠ 0)

theorem takeWhile_append_of_all {p : Nat → Bool} (l₁ l₂ : List Nat)
    (h : ∀ b ∈ l₁, p b = true) :
    (l₁ ++ l₂).takeWhile p = l₁ ++ l₂.takeWhile p := by
  induction l₁ with
  | nil => simp
  | cons a l ih =>
    have ha : p a = true := h a (List.mem_cons_self a l)
    simp [List.takeWhile, ha, ih fun b hb => h b (List.mem_cons_of_mem a hb)]

/-- C5. For every valid signal name (no embedded NUL byte) whose UTF-8
encoding is at most `SLOT_NAME_BYTES - 1 = 63` bytes, decoding the encoded
name returns the original name. -/
theorem round_trip_name (raw : List Nat)
    (hlen : raw.length ≤ SLOT_NAME_BYTES - 1)
    (hnz : ∀ b ∈ raw, b ≠ 0) :
    decode_name (encode_name raw) = raw := by
  unfold encode_name decode_name
  have htake : raw.take (SLOT_NAME_BYTES - 1) = raw := List.take_of_length_le hlen
  simp only [htake]
  rw [takeWhile_append_of_all]
  · have hrep : SLOT_NAME_BYTES - raw.length = (SLOT_NAME_BYTES - raw.length - 1) + 1 := by
      unfold SLOT_NAME_BYTES at *
      omega
    rw [hrep]
    simp [List.replicate_succ, List.takeWhile]
  · intro b hb
    simpa using hnz b hb

/-- C5 witness at the concrete name "abc" = UTF-8 bytes `[97, 98, 99]`. -/
theorem round_trip_name_witness :
    ([97, 98, 99] : List Nat).length ≤ SLOT_NAME_BYTES - 1 ∧
      decode_name (encode_name [97, 98, 99]) = [97, 98, 99] :=
  ⟨by decide, round_trip_name [97, 98, 99] (by decide) (by decide)⟩

/-- C6. A name whose UTF-8 encoding exceeds `SLOT_NAME_BYTES - 1 = 63`
bytes encodes to exactly `SLOT_NAME_BYTES = 64` bytes — the first 63 bytes
followed by a single zero terminator — and (when the kept prefix has no
embedded NUL) decodes back to that truncated 63-byte prefix. -/
theorem truncation_name (raw : List Nat)
    (hlen : SLOT_NAME_BYTES - 1 < raw.length)
    (hnz : ∀ b ∈ raw.take (SLOT_NAME_BYTES - 1), b ≠ 0) :
    (encode_name raw).length = SLOT_NAME_BYTES ∧
      encode_name raw = raw.take (SLOT_NAME_BYTES - 1) ++ [0] ∧
      decode_name (encode_name raw) = raw.take (SLOT_NAME_BYTES - 1) := by
  have hlen63 : (raw.take (SLOT_NAME_BYTES - 1)).length = SLOT_NAME_BYTES - 1 := by
    simp [List.length_take]
    unfold SLOT_NAME_BYTES at *
    omega
  have henc : encode_name raw = raw.take (SLOT_NAME_BYTES - 1) ++ [0] := by
    unfold encode_name
    simp only
    rw [hlen63]
    norm_num [SLOT_NAME_BYTES]
  refine ⟨?_, henc, ?_⟩
  · rw [henc]
    simp [hlen63]
    unfold SLOT_NAME_BYTES
    omega
  · rw [henc]
    unfold decode_name
    rw [takeWhile_append_of_all]
    · simp [List.takeWhile]
    · intro b hb
      simpa using hnz b hb

/-- C6 witness at a concrete 70-byte name (all bytes 97 = letter a):
encoding is 64 bytes and decodes to the 63-byte prefix. -/
theorem truncation_name_witness :
    SLOT_NAME_BYTES - 1 < (List.replicate 70 97 : List Nat).length ∧
      (encode_name (List.replicate 70 97)).length = SLOT_NAME_BYTES ∧
      decode_name (encode_name (List.replicate 70 97)) =
        (List.replicate 70 97 : List Nat).take (SLOT_NAME_BYTES - 1) := by
  have h := truncation_name (List.replicate 70 97) (by decide) (by decide)
  exact ⟨by decide, h.1, h.2.2⟩

/-! ## Reader slot-table semantics (provider `_rebuild_index` / `read_frame`)

The provider unpacks each slot's bytes into `(name_bytes, value, flags, pad)`.
`Slot` is that unpacked record; a region's slot table is a `List Slot` whose
position is the slot index. -/

/-- One unpacked slot record: `name[64]` raw bytes, `value` (float64,
modelled as `Int`), `flags` (uint32), `pad` (uint32). -/
structure Slot where
  name : List Nat
  value : Int
  flags : Nat
  pad : Nat
  deriving DecidableEq

/-- The `flags & FLAG_ACTIVE` test of `_rebuild_index`. -/
def slotActive (s : Slot) : Bool := s.flags &&& FLAG_ACTIVE != 0

/-- The provider's `_index` dict, as a lookup function name-bytes → slot
index. -/
def Index : Type := List Nat → Option Nat

/-- The empty dict. -/
def emptyIndex : Index := fun _ => none

/-- The body of `_rebuild_index`'s `for i in range(self.capacity)` loop,
recursing over the (unpacked) slots with the running slot index `i`:
for an ACTIVE slot with a non-empty decoded name, `idx[name] = i`
(assignment shadows any earlier binding — later duplicates overwrite). -/
def rebuild_index_aux : List Slot → Nat → Index → Index
  | [], _, idx => idx
  | s :: rest, i, idx =>
    let idx' :=
      if slotActive s then
        let nm := decode_name s.name
        if nm ≠ [] then (fun k => if k = nm then some i else idx k) else idx
      else idx
    rebuild_index_aux rest (i + 1) idx'

/-- Method `WinMmapProvider._rebuild_index` over an unpacked slot table. -/
def rebuild_index (slots : List Slot) : Index :=
  rebuild_index_aux slots 0 emptyIndex

/-- Method `WinMmapProvider.read_frame`, viewed at one name: rebuild the index,
then return the value stored at the indexed slot (the frame dict maps each
indexed name to exactly this value). -/
def read_frame (slots : List Slot) (nm : List Nat) : Option Int :=
  (rebuild_index slots nm).bind fun i => (slots.get? i).map Slot.value

/-- A slot contributes `name -> index` to the rebuilt dict iff it is
ACTIVE and its decoded name is the non-empty `nm`. -/
def slotMatches (s : Slot) (nm : List Nat) : Prop :=
  slotActive s = true ∧ decode_name s.name = nm ∧ nm ≠ []

instance (s : Slot) (nm : List Nat) : Decidable (slotMatches s nm) := by
  unfold slotMatches
  infer_instance

theorem rebuild_index_aux_no_match (l : List Slot) (nm : List Nat) (i : Nat) (idx : Index)
    (h : ∀ s ∈ l, ¬ slotMatches s nm) :
    rebuild_index_aux l i idx nm = idx nm := by
  induction l generalizing i idx with
  | nil => rfl
  | cons s rest ih =>
    have hs : ¬ slotMatches s nm := h s (List.mem_cons_self s rest)
    simp only [rebuild_index_aux]
    rw [ih _ _ (fun t ht => h t (List.mem_cons_of_mem s ht))]
    by_cases hact : slotActive s = true
    · by_cases hemp : decode_name s.name = []
      · simp [hact, hemp]
      · have hne : nm ≠ decode_name s.name := by
          intro he
          exact hs ⟨hact, he.symm, fun hnil => hemp (he ▸ hnil)⟩
        simp [hact, hemp, hne]
    · simp [hact]

theorem rebuild_index_aux_last (l : List Slot) (j : Nat) (sj : Slot) (nm : List Nat)
    (hgj : l.get? j = some sj) (hmj : slotMatches sj nm)
    (hmax : ∀ k sk, j < k → l.get? k = some sk → ¬ slotMatches sk nm) :
    ∀ i idx, rebuild_index_aux l i idx nm = some (i + j) := by
  induction l generalizing j with
  | nil => simp at hgj
  | cons s rest ih =>
    intro i idx
    cases j with
    | zero =>
      have hs : s = sj := by simpa using hgj
      subst hs
      simp only [rebuild_index_aux]
      rw [rebuild_index_aux_no_match]
      · simp [hmj.1, hmj.2.1, hmj.2.2]
      · intro t ht
        obtain ⟨n, hn⟩ := List.mem_iff_get?.mp ht
        exact hmax (n + 1) t (by omega) (by simpa using hn)
    | succ j' =>
      have hgj' : rest.get? j' = some sj := by simpa using hgj
      have hmax' : ∀ k sk, j' < k → rest.get? k = some sk → ¬ slotMatches sk nm :=
        fun k sk hk hget => hmax (k + 1) sk (by omega) (by simpa using hget)
      simp only [rebuild_index_aux]
      rw [ih j' hgj' hmax' (i + 1)]
      congr 1
      omega

/-- C1. Last-active-wins: if slots `i < j` are both ACTIVE and decode to
the same non-empty name `nm`, and `j` is the highest such slot index, then
`read_frame` maps `nm` to slot `j`'s value: the index rebuild scans slots
in increasing index order and a later duplicate overwrites an earlier one. -/
theorem read_frame_last_active_wins (slots : List Slot) (i j : Nat)
    (si sj : Slot) (nm : List Nat)
    (hij : i < j)
    (hgi : slots.get? i = some si) (hgj : slots.get? j = some sj)
    (hmi : slotMatches si nm) (hmj : slotMatches sj nm)
    (hmax : ∀ k sk, j < k → slots.get? k = some sk → ¬ slotMatches sk nm) :
    read_frame slots nm = some sj.value := by
  have hidx : rebuild_index slots nm = some j := by
    unfold rebuild_index
    rw [rebuild_index_aux_last slots j sj nm hgj hmj hmax 0 emptyIndex]
    rw [Nat.zero_add]
  show (rebuild_index slots nm).bind _ = _
  rw [hidx]
  show (slots.get? j).map Slot.value = some sj.value
  rw [hgj]
  rfl

/-- C1 witness: two ACTIVE slots (indices 0 and 1) both named byte `97`;
`read_frame` returns index 1's value `20`. -/
theorem read_frame_last_active_wins_witness :
    read_frame [⟨[97, 0], 10, 1, 0⟩, ⟨[97, 0], 20, 1, 0⟩] [97] = some 20 :=
  read_frame_last_active_wins
    [⟨[97, 0], 10, 1, 0⟩, ⟨[97, 0], 20, 1, 0⟩] 0 1
    ⟨[97, 0], 10, 1, 0⟩ ⟨[97, 0], 20, 1, 0⟩ [97]
    (by decide) (by decide) (by decide) (by decide) (by decide)
    (fun k sk hk hget => by
      have : k < 2 := (List.get?_eq_some.mp hget).1
      omega)

/-! ## History buffer (`PlotWidget` / `SignalTrack` in
`widgets/plot/qtchart/core.py`)

Numeric samples are modelled as `Int` (the claims concern ordering and
sequence contents, not float arithmetic). -/

/-- The per-signal history state of a `SignalTrack`: `x`/`y` sample
buffers and the running extrema `min_val`/`max_val` (`None` = unset). -/
structure Track where
  x : List Int
  y : List Int
  min_val : Option Int
  max_val : Option Int
  deriving DecidableEq

/-- A freshly added track (`add_signal` creates `SignalTrack(name, series,
[], [], ...)`; `min_val`/`max_val` default to `None`). -/
def freshTrack : Track := { x := [], y := [], min_val := none, max_val := none }

/-- Python list slice `l[-m:]` (used as `tr.x[-max_points:]`): for `m > 0`
the last `m` elements; for `m = 0`, `l[-0:] = l[0:]` is the whole list. -/
def pySliceLast (m : Nat) (l : List Int) : List Int :=
  if m = 0 then l else l.drop (l.length - m)

/-- The per-track body of `PlotWidget.tick` for one observed value `v` at
abscissa `xv`: update `min_val`/`max_val` with strict comparisons and
record whether either changed, append `(xv, v)`, then if the buffer
exceeds `max_points` keep only the last `max_points` entries.
Returns the updated track and the `changed` flag. -/
def tickTrack (tr : Track) (xv v : Int) (max_points : Nat) : Track × Bool :=
  let step1 :=
    match tr.min_val with
    | none => (v, true)
    | some m => if v < m then (v, true) else (m, false)
  let step2 :=
    match tr.max_val with
    | none => (v, true)
    | some m => if m < v then (v, true) else (m, false)
  let changed := step1.2 || step2.2
  let x1 := tr.x ++ [xv]
  let y1 := tr.y ++ [v]
  let step3 :=
    if x1.length > max_points then (pySliceLast max_points x1, pySliceLast max_points y1)
    else (x1, y1)
  ({ x := step3.1, y := step3.2, min_val := some step1.1, max_val := some step2.1 }, changed)

/-- Folding `tick` over a list of `(x, y)` observations of one signal. -/
def tickSeq (tr : Track) (obs : List (Int × Int)) (max_points : Nat) : Track :=
  obs.foldl (fun t p => (tickTrack t p.1 p.2 max_points).1) tr

/-- C2. With `max_points = 3`, observing y-values `[1,2,3,4,5]` (at
x = 0..4) leaves exactly the last three points `[3,4,5]` in order, the
buffer length stays ≤ 3 after every observation, and the running extrema
`min_val = 1`, `max_val = 5` survive the eviction. -/
theorem history_eviction_c2 :
    (tickSeq freshTrack [(0, 1), (1, 2), (2, 3), (3, 4), (4, 5)] 3).y = [3, 4, 5] ∧
      (tickSeq freshTrack [(0, 1), (1, 2), (2, 3), (3, 4), (4, 5)] 3).min_val = some 1 ∧
      (tickSeq freshTrack [(0, 1), (1, 2), (2, 3), (3, 4), (4, 5)] 3).max_val = some 5 ∧
      (∀ k ≤ 5, (tickSeq freshTrack
        (([(0, 1), (1, 2), (2, 3), (3, 4), (4, 5)] : List (Int × Int)).take k) 3).y.length ≤ 3) := by
  refine ⟨by decide, by decide, by decide, ?_⟩
  intro k hk
  interval_cases k <;> decide

/-- C8. The first observation of a signal (both extrema unset) always
reports `stats_changed = true` and sets both `min_val` and `max_val` to
the observed value; a later observation strictly between the recorded
extrema reports `stats_changed = false` (comparison is strict `<` / `>`). -/
theorem stats_changed_c8 (tr : Track) (xv v : Int) (max_points : Nat) :
    (tr.min_val = none → tr.max_val = none →
      (tickTrack tr xv v max_points).2 = true ∧
        (tickTrack tr xv v max_points).1.min_val = some v ∧
        (tickTrack tr xv v max_points).1.max_val = some v) ∧
    (∀ mn mx, tr.min_val = some mn → tr.max_val = some mx → mn < v → v < mx →
      (tickTrack tr xv v max_points).2 = false) := by
  constructor
  · intro hmn hmx
    simp [tickTrack, hmn, hmx]
  · intro mn mx hmn hmx h1 h2
    simp [tickTrack, hmn, hmx, not_lt_of_gt h1, not_lt_of_gt h2]

/-- C8 witness: first observation on a fresh track reports `true`; on a
track with `min_val = 0`, `max_val = 10`, observing `5` reports `false`. -/
theorem stats_changed_c8_witness :
    (tickTrack freshTrack 0 7 3).2 = true ∧
      (tickTrack ⟨[0], [0], some 0, some 10⟩ 1 5 3).2 = false :=
  ⟨((stats_changed_c8 freshTrack 0 7 3).1 rfl rfl).1,
    (stats_changed_c8 ⟨[0], [0], some 0, some 10⟩ 1 5 3).2 0 10 rfl rfl
      (by decide) (by decide)⟩

/-! ## Signal registration (`PlotWidget._tracks`, `remove_signal`,
`clear_signals`)

Signal names are byte sequences as elsewhere; `_tracks` is the dict of
registered signals, modelled as an association list (keys unique in any
state the widget builds, and none of the statements below depend on
uniqueness). -/

/-- The registration state of a `PlotWidget`: its `_tracks` dict. -/
structure PlotState where
  tracks : List (List Nat × Track)
  deriving DecidableEq

/-- Python `signal_name in self._tracks`. -/
def registered (ps : PlotState) (nm : List Nat) : Bool :=
  ps.tracks.any fun p => p.1 = nm

/-- Method `PlotWidget.remove_signal`: `self._tracks.pop(signal_name, None)` —
the signal's entry (data, extrema and registration alike) is removed. -/
def remove_signal (ps : PlotState) (nm : List Nat) : PlotState :=
  { tracks := ps.tracks.filter fun p => p.1 ≠ nm }

/-- Method `PlotWidget.clear_signals`:
`for sn in list(self._tracks.keys()): self.remove_signal(sn)`. -/
def clear_signals (ps : PlotState) : PlotState :=
  (ps.tracks.map Prod.fst).foldl remove_signal ps

theorem foldl_remove_signal (keys : List (List Nat)) (ps : PlotState) :
    (keys.foldl remove_signal ps).tracks =
      ps.tracks.filter fun p => ¬ (p.1 ∈ keys) := by
  induction keys generalizing ps with
  | nil =>
    simp only [List.foldl]
    symm
    refine List.filter_eq_self.mpr ?_
    intro a _
    simp
  | cons k ks ih =>
    simp only [List.foldl]
    rw [ih]
    show (ps.tracks.filter _).filter _ = _
    rw [List.filter_filter]
    refine List.filter_congr ?_
    intro a _
    by_cases h1 : a.1 = k <;> by_cases h2 : a.1 ∈ ks <;>
      simp [h1, h2, List.mem_cons]

/-- C9 counterexample: in a state with one registered signal (name byte
`97`) holding data and extrema, `clear_signals` leaves the signal
UNregistered — contradicting the claim that clear keeps the registration. -/
theorem clear_signals_drops_registration :
    registered ⟨[([97], ⟨[0], [1], some 1, some 1⟩)]⟩ [97] = true ∧
      registered (clear_signals ⟨[([97], ⟨[0], [1], some 1, some 1⟩)]⟩) [97] = false := by
  constructor
  · decide
  · have h := foldl_remove_signal
      ((⟨[([97], ⟨[0], [1], some 1, some 1⟩)]⟩ : PlotState).tracks.map Prod.fst)
      ⟨[([97], ⟨[0], [1], some 1, some 1⟩)]⟩
    simp [clear_signals, registered]
    intro a b hmem
    simp [remove_signal] at hmem

/-- C9 (amended). `clear_signals` removes every signal outright: after it
runs, no signal is registered at all — hence no points and no extrema
remain either, but registration is NOT preserved. -/
theorem clear_signals_empties_tracks (ps : PlotState) :
    (clear_signals ps).tracks = [] := by
  unfold clear_signals
  rw [foldl_remove_signal]
  refine List.filter_eq_nil_iff.mpr ?_
  intro p hp
  have hmem : p.1 ∈ ps.tracks.map Prod.fst := List.mem_map_of_mem Prod.fst hp
  simp [hmem]

/-! ## Writer publish loop (`run_emulator` / `_init_mapping` in
`writer/core.py`) -/

/-- Behaviour of `struct.pack` on a `"Q"` (unsigned 64-bit) field: stores the exact
value for inputs below `2 ^ 64` and raises `struct.error` otherwise
(Python ints never wrap silently). -/
def packQ (c : Nat) : Option Nat :=
  if c < 2 ^ 64 then some c else none

/-- The counter-relevant writer state: the Python `counter` variable and
the counter field currently stored in the mapped header. -/
structure EmuState where
  counter : Nat
  headerCounter : Option Nat
  deriving DecidableEq

/-- State right after `_init_mapping`: `counter = 0` in the loop and
`struct.pack_into(HEADER_FMT, buf, 0, MAGIC, VERSION, 0, time.time(),
capacity)` stores `0` in the header. -/
def initEmu : EmuState := { counter := 0, headerCounter := packQ 0 }

/-- One publish iteration of `run_emulator`'s loop: `counter += 1` then
`struct.pack_into(HEADER_FMT, buf, 0, MAGIC, VERSION, counter, ...)`. -/
def publishStep (s : EmuState) : EmuState :=
  { counter := s.counter + 1, headerCounter := packQ (s.counter + 1) }

/-- The writer state after `n` publish iterations of one run (no restart). -/
def emuAfter : Nat → EmuState
  | 0 => initEmu
  | n + 1 => publishStep (emuAfter n)

theorem emuAfter_counter (n : Nat) : (emuAfter n).counter = n := by
  induction n with
  | zero => rfl
  | succ k ih => simp [emuAfter, publishStep, ih]

/-- C3. Across one writer run the header's counter field after `n`
publishes is exactly `n` (for every physically reachable `n < 2 ^ 64`):
it starts at `0` from `_init_mapping` and each publish stores exactly the
previous value plus one — strictly increasing, never reset mid-run. -/
theorem counter_monotonic_c3 (n : Nat) (h : n < 2 ^ 64) :
    (emuAfter n).headerCounter = some n := by
  cases n with
  | zero => simp [emuAfter, initEmu, packQ]
  | succ k =>
    show packQ ((emuAfter k).counter + 1) = some (k + 1)
    rw [emuAfter_counter]
    unfold packQ
    rw [if_pos h]

/-- C3 witness at `n = 5`. -/
theorem counter_monotonic_c3_witness :
    (5 : Nat) < 2 ^ 64 ∧ (emuAfter 5).headerCounter = some 5 :=
  ⟨by norm_num, counter_monotonic_c3 5 (by norm_num)⟩

/-! ## Replay cursor (`run_emulator` CSV mode) -/

/-- The cursor update after each CSV-mode publish:
`row_idx += 1; if row_idx >= n_rows: row_idx = 0`. -/
def rowStep (n_rows row_idx : Nat) : Nat :=
  let r := row_idx + 1
  if r ≥ n_rows then 0 else r

/-- The cursor value used by the `k`-th publish (0-based): `row_idx`
starts at `0` and is advanced by `rowStep` after each publish. -/
def rowIdxAt (n_rows : Nat) : Nat → Nat
  | 0 => 0
  | k + 1 => rowStep n_rows (rowIdxAt n_rows k)

/-- The row a CSV-mode publish iteration reads: `row = csv_rows[row_idx]`
before the cursor advances. -/
def rowUsedAt {α : Type} (rows : List α) (k : Nat) : Option α :=
  rows.get? (rowIdxAt rows.length k)

theorem rowIdxAt_three (k : Nat) : rowIdxAt 3 k = k % 3 := by
  induction k with
  | zero => rfl
  | succ m ih =>
    show rowStep 3 (rowIdxAt 3 m) = (m + 1) % 3
    rw [ih]
    by_cases hc : m % 3 + 1 ≥ 3 <;> simp [rowStep, hc] <;> omega

/-- C7. A writer with a 3-row replay source publishes rows in the exact
cyclic order `0,1,2,0,1,2,...`: the `k`-th publish uses row `k % 3`. -/
theorem replay_wraparound_c7 {α : Type} (rows : List α) (h : rows.length = 3)
    (k : Nat) : rowUsedAt rows k = rows.get? (k % 3) := by
  unfold rowUsedAt
  rw [h, rowIdxAt_three]

/-- C7 witness: on the 3-row source `[10, 20, 30]` the 4th publish
(`k = 3`) wraps back to row 0. -/
theorem replay_wraparound_c7_witness :
    ([10, 20, 30] : List Nat).length = 3 ∧
      rowUsedAt ([10, 20, 30] : List Nat) 3 = some 10 :=
  ⟨rfl, by rw [replay_wraparound_c7 [10, 20, 30] rfl 3]; rfl⟩

/-! ## Byte-level provider (`WinMmapProvider.connect` / `disconnect` /
`_rebuild_index` over the raw mapping) -/

/-- Behaviour of `struct.unpack_from(fmt, buf, off)` for a format of width `n`: the
`n` bytes at `off`, or `struct.error` (`none`) when the buffer is too
short. -/
def unpack_from (buf : List Nat) (off n : Nat) : Option (List Nat) :=
  if off + n ≤ buf.length then some ((buf.drop off).take n) else none

/-- Little-endian value of a byte string (all multi-byte fields in
`HEADER_FMT`/`SLOT_FMT` are `<` little-endian). -/
def leVal (bs : List Nat) : Nat :=
  bs.foldr (fun b acc => b + 256 * acc) 0

/-- The `flags` field of an unpacked 80-byte slot record
(offset 72 in `SLOT_FMT = "<64s d I I"`). -/
def slotFlagsOf (sb : List Nat) : Nat := leVal ((sb.drop 72).take 4)

/-- The `name` field (first 64 bytes) of an unpacked slot record. -/
def slotNameOf (sb : List Nat) : List Nat := sb.take 64

/-- The `capacity` field of an unpacked 28-byte header
(offset 24 in `HEADER_FMT = "<4sI Q d I"`). -/
def headerCapacityOf (hdr : List Nat) : Nat := leVal ((hdr.drop 24).take 4)

/-- The `for i in range(capacity)` loop of `_rebuild_index` over the raw
mapping: unpack the slot at `HEADER_SIZE + i * SLOT_SIZE` (propagating
`struct.error` as `none`), and record `name -> i` for every ACTIVE slot
with a non-empty decoded name. The remaining iteration count is the
first argument. -/
def rebuild_index_bytes_aux (buf : List Nat) : Nat → Nat → Index → Option Index
  | 0, _, idx => some idx
  | fuel + 1, i, idx =>
    match unpack_from buf (HEADER_SIZE + i * SLOT_SIZE) SLOT_SIZE with
    | none => none
    | some sb =>
      let idx' :=
        if slotFlagsOf sb &&& FLAG_ACTIVE ≠ 0 then
          let nm := decode_name (slotNameOf sb)
          if nm ≠ [] then (fun k => if k = nm then some i else idx k) else idx
        else idx
      rebuild_index_bytes_aux buf fuel (i + 1) idx'

/-- Method `WinMmapProvider._rebuild_index` on the raw mapping `buf` with the
provider's current `capacity`: `none` models a propagating
`struct.error` from an out-of-bounds slot read. -/
def rebuild_index_bytes (buf : List Nat) (capacity : Nat) : Option Index :=
  rebuild_index_bytes_aux buf capacity 0 emptyIndex

/-- The reader state of `WinMmapProvider`: requested-then-learned
`capacity`, the open mapping (`None` when disconnected) and the cached
`_index`. -/
structure Provider where
  capacity : Nat
  buf : Option (List Nat)
  index : Index

/-- Method `WinMmapProvider.is_connected`: true iff a mapping is open. -/
def is_connected (p : Provider) : Bool := p.buf.isSome

/-- Method `WinMmapProvider.disconnect`: close the mapping (idempotent) and
clear the cached index. -/
def disconnect (p : Provider) : Provider :=
  { p with buf := none, index := emptyIndex }

/-- Method `WinMmapProvider.connect`: map
`HEADER_SIZE + self.capacity * SLOT_SIZE` bytes of the named region,
unpack the header, and on a magic mismatch `self.disconnect()` before
raising; on success overwrite `capacity` with the header's value and
rebuild the index. The second component is the raised error, if any
(a `struct.error` propagates without running `disconnect`). -/
def connect (p : Provider) (region : List Nat) : Provider × Option String :=
  let size := HEADER_SIZE + p.capacity * SLOT_SIZE
  let buf := region.take size
  let p1 : Provider := { p with buf := some buf }
  match unpack_from buf 0 HEADER_SIZE with
  | none => (p1, some "struct.error")
  | some hdr =>
    if hdr.take 4 ≠ MAGIC then
      (disconnect p1, some "Bad mapping magic. Is the emulator running?")
    else
      let p2 : Provider := { p1 with capacity := headerCapacityOf hdr }
      match rebuild_index_bytes buf (headerCapacityOf hdr) with
      | none => (p2, some "struct.error")
      | some idx => ({ p2 with index := idx }, none)

/-- C4. Connecting to a region whose first 4 bytes are not `"VSM1"`
fails with the bad-magic error, and the partially opened handle is closed
before the error propagates: afterwards `is_connected()` is false and the
cached name-to-slot index is empty. -/
theorem bad_magic_c4 (p : Provider) (region : List Nat)
    (hlen : HEADER_SIZE ≤ region.length)
    (hmagic : region.take 4 ≠ MAGIC) :
    (connect p region).2 = some "Bad mapping magic. Is the emulator running?" ∧
      is_connected (connect p region).1 = false ∧
      ∀ nm, (connect p region).1.index nm = none := by
  have hsz : (4 : Nat) ≤ HEADER_SIZE + p.capacity * SLOT_SIZE ∧
      HEADER_SIZE ≤ HEADER_SIZE + p.capacity * SLOT_SIZE := by
    unfold HEADER_SIZE SLOT_SIZE
    omega
  have hbuflen : HEADER_SIZE ≤ (region.take (HEADER_SIZE + p.capacity * SLOT_SIZE)).length := by
    rw [List.length_take]
    exact le_min hsz.2 hlen
  have hunpack : unpack_from (region.take (HEADER_SIZE + p.capacity * SLOT_SIZE)) 0 HEADER_SIZE =
      some ((region.take (HEADER_SIZE + p.capacity * SLOT_SIZE)).take HEADER_SIZE) := by
    unfold unpack_from
    rw [if_pos (by omega)]
    rw [List.drop_zero]
  have htake4 : ((region.take (HEADER_SIZE + p.capacity * SLOT_SIZE)).take HEADER_SIZE).take 4 =
      region.take 4 := by
    rw [List.take_take, List.take_take]
    congr 1
    unfold HEADER_SIZE SLOT_SIZE
    omega
  have hne : ((region.take (HEADER_SIZE + p.capacity * SLOT_SIZE)).take HEADER_SIZE).take 4 ≠
      MAGIC := by
    rw [htake4]
    exact hmagic
  unfold connect
  simp only [hunpack, if_pos hne]
  simp [disconnect, is_connected, emptyIndex]

/-- C4 witness: a 28-byte all-zero region (magic `[0,0,0,0] ≠ "VSM1"`)
with requested capacity 0. -/
theorem bad_magic_c4_witness :
    (connect ⟨0, none, emptyIndex⟩ (List.replicate 28 0)).2 =
        some "Bad mapping magic. Is the emulator running?" ∧
      is_connected (connect ⟨0, none, emptyIndex⟩ (List.replicate 28 0)).1 = false ∧
      (connect ⟨0, none, emptyIndex⟩ (List.replicate 28 0)).1.index [97] = none := by
  have h := bad_magic_c4 ⟨0, none, emptyIndex⟩ (List.replicate 28 0)
    (by decide) (by decide)
  exact ⟨h.1, h.2.1, h.2.2 [97]⟩

theorem rebuild_index_bytes_aux_ok (rc : Nat) (buf : List Nat)
    (hlen : buf.length = HEADER_SIZE + rc * SLOT_SIZE) :
    ∀ fuel i idx, i + fuel ≤ rc →
      (rebuild_index_bytes_aux buf fuel i idx).isSome = true := by
  intro fuel
  induction fuel with
  | zero => intro i idx h; rfl
  | succ f ih =>
    intro i idx h
    have hcond : HEADER_SIZE + i * SLOT_SIZE + SLOT_SIZE ≤ buf.length := by
      rw [hlen]
      unfold HEADER_SIZE SLOT_SIZE
      have : i < rc := by omega
      calc 28 + i * 80 + 80 = 28 + (i + 1) * 80 := by ring
        _ ≤ 28 + rc * 80 := by
            have : i + 1 ≤ rc := this
            omega
    show (rebuild_index_bytes_aux buf (f + 1) i idx).isSome = true
    unfold rebuild_index_bytes_aux unpack_from
    rw [if_pos hcond]
    exact ih (i + 1) _ (by omega)

theorem rebuild_index_bytes_aux_raises (rc : Nat) (buf : List Nat)
    (hlen : buf.length = HEADER_SIZE + rc * SLOT_SIZE) :
    ∀ fuel i idx, rc + 1 ≤ i + fuel → 1 ≤ fuel →
      rebuild_index_bytes_aux buf fuel i idx = none := by
  intro fuel
  induction fuel with
  | zero => intro i idx h h1; omega
  | succ f ih =>
    intro i idx h h1
    by_cases hi : i < rc
    · have hcond : HEADER_SIZE + i * SLOT_SIZE + SLOT_SIZE ≤ buf.length := by
        rw [hlen]
        unfold HEADER_SIZE SLOT_SIZE
        calc 28 + i * 80 + 80 = 28 + (i + 1) * 80 := by ring
          _ ≤ 28 + rc * 80 := by
              have : i + 1 ≤ rc := hi
              omega
      show rebuild_index_bytes_aux buf (f + 1) i idx = none
      unfold rebuild_index_bytes_aux unpack_from
      rw [if_pos hcond]
      exact ih (i + 1) _ (by omega) (by omega)
    · have hcond : ¬ (HEADER_SIZE + i * SLOT_SIZE + SLOT_SIZE ≤ buf.length) := by
        rw [hlen]
        unfold HEADER_SIZE SLOT_SIZE
        have : rc ≤ i := by omega
        have h80 : rc * 80 ≤ i * 80 := Nat.mul_le_mul_right 80 this
        omega
      show rebuild_index_bytes_aux buf (f + 1) i idx = none
      unfold rebuild_index_bytes_aux unpack_from
      rw [if_neg hcond]

/-- C10. The reader sizes its mapping from the capacity requested at
construction (giving `HEADER_SIZE + rc * SLOT_SIZE` mapped bytes) before
overwriting its working capacity with the header's value `hc`; the slot
scan over `hc` slots then stays inside the mapping — and is total —
exactly when `hc ≤ rc`. When `hc > rc` the scan addresses an offset past
the end of the mapping and the operation raises (`none`) instead of
returning data. -/
theorem capacity_bound_c10 (rc hc : Nat) (buf : List Nat)
    (hlen : buf.length = HEADER_SIZE + rc * SLOT_SIZE) :
    (rebuild_index_bytes buf hc).isSome = true ↔ hc ≤ rc := by
  constructor
  · intro hsome
    by_contra hgt
    have : rebuild_index_bytes buf hc = none := by
      unfold rebuild_index_bytes
      exact rebuild_index_bytes_aux_raises rc buf hlen hc 0 emptyIndex
        (by omega) (by omega)
    rw [this] at hsome
    simp at hsome
  · intro hle
    unfold rebuild_index_bytes
    exact rebuild_index_bytes_aux_ok rc buf hlen hc 0 emptyIndex (by omega)

/-- C10 witness: a mapping sized for requested capacity 1 (108 bytes);
scanning a header capacity of 1 succeeds (`1 ≤ 1`). -/
theorem capacity_bound_c10_witness :
    (List.replicate 108 0 : List Nat).length = HEADER_SIZE + 1 * SLOT_SIZE ∧
      ((rebuild_index_bytes (List.replicate 108 0) 1).isSome = true ↔ 1 ≤ 1) :=
  ⟨by decide, capacity_bound_c10 1 1 (List.replicate 108 0) (by decide)⟩

end Vorosim
